import Mathlib

/-!
Verification development for `gdb_util/instrument_srs.py`.

The Python module instruments `std::sort` on a vector of `int_wrapper_t`:
a gdb-side producer (`show_swap`, `show_move`) classifies operand addresses
against the tracked vector's bounds and pushes operation records onto a
`Queue`; a Qt-side consumer (`_check_for_messages`) polls that queue and
applies one record per tick to its state (`elements`, `temp_elements`);
gdb breakpoint command strings choreograph which sites are enabled.

This file embeds those parts shallowly: machine addresses are `Nat` (byte
addresses, with an explicit element `stride`), gdb typed-pointer subtraction
is truncated division by the stride, Python lists are Lean lists with
Python's negative-index and `IndexError` semantics, the Python dict
`temp_elements` is an insertion-ordered association list, and Python
exceptions are an `Except` layer.
-/

namespace InstrumentSrs

/-- Python-level exceptions that the embedded code can raise:
`KeyError` from `self.temp_elements[a]`, `IndexError` from list indexing,
and the explicit `RuntimeError` raised in `show_move`. -/
inductive PyErr where
  | keyError (k : String)
  | indexError
  | runtimeError (msg : String)
deriving Repr, DecidableEq

/-- An operation record as sent over `self.messages`: the tuples
`('swap', a_idx, b_idx)`, `('move', src, dst)`, `('move_from_temp', token, dst)`
and `('move_to_temp', src, token)` produced by `_send_message`.
Slot indices are Python ints (`Int`), temporaries are stringified addresses. -/
inductive Msg where
  | swap (a b : Int)
  | move (src dst : Int)
  | move_from_temp (tok : String) (dst : Int)
  | move_to_temp (src : Int) (tok : String)
deriving Repr, DecidableEq

/-- A temporary-registry value: the tuple `(pos, temp_elt)` stored in
`self.temp_elements` — a display position (`QPointF` x/y coordinates)
and the held element or `None`. -/
abbrev TempVal := (Nat × Nat) × Option Int

/-- The GUI-thread state of `GuiThread` that the operation records act on:
`self.elements` (slot contents, `None` marking a moved-from slot) and
`self.temp_elements` (the dict from token string to `(pos, elt)`),
modelled as an insertion-ordered association list. -/
structure GuiState where
  elements : List (Option Int)
  temp_elements : List (String × TempVal)
deriving Repr, DecidableEq

/-- Python list read `l[i]`: nonnegative indices below the length read
directly, negative indices at least `-len(l)` wrap around, anything else
raises `IndexError`. -/
def pyGet {α : Type} (l : List α) (i : Int) : Except PyErr α :=
  if h : 0 ≤ i ∧ i < (l.length : Int) then
    .ok (l.get ⟨i.toNat, by omega⟩)
  else if h2 : -(l.length : Int) ≤ i ∧ i < 0 then
    .ok (l.get ⟨((l.length : Int) + i).toNat, by omega⟩)
  else
    .error .indexError

/-- Python list write `l[i] = x`, with the same index semantics as `pyGet`. -/
def pySet {α : Type} (l : List α) (i : Int) (x : α) : Except PyErr (List α) :=
  if 0 ≤ i ∧ i < (l.length : Int) then
    .ok (l.set i.toNat x)
  else if -(l.length : Int) ≤ i ∧ i < 0 then
    .ok (l.set ((l.length : Int) + i).toNat x)
  else
    .error .indexError

/-- Python dict read: the value stored under key `t`, if present
(`t in self.temp_elements` / `self.temp_elements[t]`). -/
def lookupTemp (reg : List (String × TempVal)) (t : String) : Option TempVal :=
  match reg with
  | [] => none
  | (k, v) :: rest => if k = t then some v else lookupTemp rest t

/-- Python dict write `self.temp_elements[t] = e`: replace the value under
an existing key in place, otherwise append a new entry (Python dicts keep
insertion order, and `len` counts keys). -/
def insertTemp (reg : List (String × TempVal)) (t : String) (e : TempVal) :
    List (String × TempVal) :=
  match reg with
  | [] => [(t, e)]
  | (k, v) :: rest => if k = t then (t, e) :: rest else (k, v) :: insertTemp rest t e

/-- One message dispatch of `GuiThread._check_for_messages`: the
`if op is ...` chain that updates `self.elements` and `self.temp_elements`.
The Qt animation calls (`_perform_move`, the position bookkeeping inside
`_perform_swap`) do not touch this state and are omitted; the state
updates and the raising dict/list accesses are kept in source order. -/
def applyOp (st : GuiState) (m : Msg) : Except PyErr GuiState :=
  match m with
  | .swap a b => do
      let elt_a ← pyGet st.elements a
      let elt_b ← pyGet st.elements b
      let e1 ← pySet st.elements a elt_b
      let e2 ← pySet e1 b elt_a
      pure { st with elements := e2 }
  | .move a b => do
      let elt_a ← pyGet st.elements a
      let e1 ← pySet st.elements b elt_a
      let e2 ← pySet e1 a none
      pure { st with elements := e2 }
  | .move_from_temp a b =>
      match lookupTemp st.temp_elements a with
      | none => .error (.keyError a)
      | some (pos, temp_elt) => do
          let reg := insertTemp st.temp_elements a (pos, none)
          let e1 ← pySet st.elements b temp_elt
          pure { elements := e1, temp_elements := reg }
  | .move_to_temp a b => do
      let pos :=
        match lookupTemp st.temp_elements b with
        | some (pos, _) => pos
        | none => (20 + 20 * st.temp_elements.length, 60)
      let elt_a ← pyGet st.elements a
      let reg := insertTemp st.temp_elements b (pos, elt_a)
      let e1 ← pySet st.elements a none
      pure { elements := e1, temp_elements := reg }

/-- One poll cycle of `_check_for_messages` over the message queue:
`if not self.messages.empty(): op, a, b = self.messages.get()` — it
dequeues and applies at most one record per cycle. -/
def checkForMessages (st : GuiState) (queue : List Msg) :
    Except PyErr (GuiState × List Msg) :=
  match queue with
  | [] => .ok (st, [])
  | m :: rest => do
      let st' ← applyOp st m
      pure (st', rest)

/-- Iterated poll cycles (the `QTimer` firing `n` times). -/
def runPolls : Nat → GuiState → List Msg → Except PyErr (GuiState × List Msg)
  | 0, st, queue => .ok (st, queue)
  | n + 1, st, queue => do
      let (st', q') ← checkForMessages st queue
      runPolls n st' q'

/-- Applying a whole list of records in order (records drained one per
poll cycle reach the state in exactly this order). -/
def applyOps : GuiState → List Msg → Except PyErr GuiState
  | st, [] => .ok st
  | st, m :: ms => do
      let st' ← applyOp st m
      applyOps st' ms

/-- The state of `GuiThread` right after `__init__` snapshots the vector
values and `run` builds `self.elements` (one entry per value) and the
empty `self.temp_elements`. -/
def initState (vals : List Int) : GuiState :=
  { elements := vals.map some, temp_elements := [] }

/-- The in-vector test of `show_move`:
`(a >= self.base_addr) and (a < (self.base_addr + self.size))` on typed
gdb pointers — in byte addresses, `base ≤ addr < base + count * stride`. -/
def inVec (base count stride addr : Nat) : Prop :=
  base ≤ addr ∧ addr < base + count * stride

instance (base count stride addr : Nat) : Decidable (inVec base count stride addr) :=
  instDecidableAnd

/-- The slot index computed by gdb typed-pointer subtraction
`a - self.base_addr` for an in-vector address: byte offset over stride. -/
def vecIndex (base stride addr : Nat) : Nat :=
  (addr - base) / stride

/-- The classifier's result: either a slot of the tracked vector or an
opaque token (a stringified temporary address). -/
inductive Loc where
  | slot (i : Nat)
  | token (t : String)
deriving Repr, DecidableEq

/-- The address classification performed by `show_move`: addresses inside
the vector become slot indices via pointer subtraction, addresses outside
become string tokens via Python `str(...)`. -/
def classify (base count stride addr : Nat) : Loc :=
  if inVec base count stride addr then .slot (vecIndex base stride addr)
  else .token (toString addr)

/-- `GuiThread.show_swap`: both operand indices are computed by raw
pointer subtraction (`a.address - self.base_addr`, truncated division by
the element stride, as gdb does for typed pointers) and a swap record is
sent — there is no in-vector check on either operand. -/
def show_swap (base stride : Nat) (aAddr bAddr : Nat) : Msg :=
  .swap (((aAddr : Int) - (base : Int)).tdiv (stride : Int))
        (((bAddr : Int) - (base : Int)).tdiv (stride : Int))

/-- `GuiThread.show_move` for destination address `aAddr` (`this`) and
source address `bAddr` (`other`'s address): the four-way classification of
the two addresses, raising `RuntimeError` when both are temporaries. -/
def show_move (base count stride : Nat) (aAddr bAddr : Nat) : Except PyErr Msg :=
  if inVec base count stride aAddr ∧ inVec base count stride bAddr then
    .ok (.move ((vecIndex base stride bAddr : Nat) : Int)
               ((vecIndex base stride aAddr : Nat) : Int))
  else if inVec base count stride aAddr then
    .ok (.move_from_temp (toString bAddr) ((vecIndex base stride aAddr : Nat) : Int))
  else if inVec base count stride bAddr then
    .ok (.move_to_temp ((vecIndex base stride bAddr : Nat) : Int) (toString aAddr))
  else
    .error (.runtimeError ("saw an unexpected move from temporary to temporary"))

/-- The records produced by one front-end callback: one record on success,
none when the callback raised instead of sending. -/
def emitted (r : Except PyErr Msg) : List Msg :=
  match r with
  | .ok m => [m]
  | .error _ => []

/-- Which of the two move observability breakpoints a hit landed on:
the move constructor or the move assignment operator. -/
inductive MoveSite where
  | ctor
  | assign
deriving Repr, DecidableEq

/-- An event the choreographed breakpoints can observe while the algorithm
runs: a hit of the swap primitive (with its two operand addresses), a hit
of a move primitive (destination and source addresses), or the firing of
the one-shot `FinishBreakpoint` installed at a swap entry. -/
inductive HitEv where
  | swapHit (aAddr bAddr : Nat)
  | moveHit (site : MoveSite) (thisAddr otherAddr : Nat)
  | swapFinish
deriving Repr, DecidableEq

/-- The enabled/disabled state of the observability breakpoints
(`swap_bp`, `move_bp`, `move_assign_bp`) plus whether a swap's one-shot
finish breakpoint is currently installed. -/
structure BpState where
  swap_bp : Bool
  move_bp : Bool
  move_assign_bp : Bool
  pendingFinish : Bool
deriving Repr, DecidableEq

/-- One breakpoint event under the command strings attached in the source:
a hit only runs its commands when its breakpoint is enabled; the swap
commands send the swap record, disable both move sites and install the
one-shot finish trigger; a move hit runs `show_move`; the finish trigger
re-enables both move sites and deletes itself. -/
def stepHit (base count stride : Nat) (bp : BpState) (ev : HitEv) :
    Except PyErr (BpState × List Msg) :=
  match ev with
  | .swapHit a b =>
      if bp.swap_bp then
        .ok ({ bp with move_bp := false, move_assign_bp := false, pendingFinish := true },
             [show_swap base stride a b])
      else .ok (bp, [])
  | .moveHit site t o =>
      if (match site with | .ctor => bp.move_bp | .assign => bp.move_assign_bp) then
        match show_move base count stride t o with
        | .ok m => .ok (bp, [m])
        | .error e => .error e
      else .ok (bp, [])
  | .swapFinish =>
      if bp.pendingFinish then
        .ok ({ bp with move_bp := true, move_assign_bp := true, pendingFinish := false }, [])
      else .ok (bp, [])

/-- Processing a sequence of breakpoint events, concatenating the emitted
records in order. -/
def runHits (base count stride : Nat) (bp : BpState) :
    List HitEv → Except PyErr (BpState × List Msg)
  | [] => .ok (bp, [])
  | ev :: rest => do
      let (bp1, ms1) ← stepHit base count stride bp ev
      let (bp2, ms2) ← runHits base count stride bp1 rest
      pure (bp2, ms1 ++ ms2)

/-- Slot contents at index `i` (out-of-range reads as empty, used only in
predicates whose bounds hypotheses keep `i` in range). -/
def slotAt (st : GuiState) (i : Nat) : Option Int :=
  st.elements.getD i none

/-- Number of non-empty slots. -/
def liveSlots (st : GuiState) : Nat :=
  st.elements.countP (fun o => o.isSome)

/-- Number of live (element-holding) temporary-registry entries. -/
def liveTemps (st : GuiState) : Nat :=
  st.temp_elements.countP (fun kv => kv.2.2.isSome)

/-- Validity of one operation record in a given state: its indices are
in range and it describes a genuine transfer of element ownership — a
swap of two slots, a move from a live slot to a distinct empty slot, a
move to a temporary from a live slot with the target registry entry
absent or element-empty, or a move from a live registry entry into an
empty slot. -/
def ValidOp (st : GuiState) : Msg → Prop
  | .swap a b =>
      0 ≤ a ∧ a < (st.elements.length : Int) ∧ 0 ≤ b ∧ b < (st.elements.length : Int)
  | .move a b =>
      0 ≤ a ∧ a < (st.elements.length : Int) ∧ 0 ≤ b ∧ b < (st.elements.length : Int) ∧
      a ≠ b ∧ (slotAt st a.toNat).isSome ∧ slotAt st b.toNat = none
  | .move_from_temp t b =>
      0 ≤ b ∧ b < (st.elements.length : Int) ∧
      (∃ p v, lookupTemp st.temp_elements t = some (p, some v)) ∧
      slotAt st b.toNat = none
  | .move_to_temp a t =>
      0 ≤ a ∧ a < (st.elements.length : Int) ∧ (slotAt st a.toNat).isSome ∧
      (lookupTemp st.temp_elements t = none ∨
        ∃ p, lookupTemp st.temp_elements t = some (p, none))

/-- A sequence of records each valid in the state reached by its
predecessors. -/
inductive ValidTrace : GuiState → List Msg → Prop where
  | nil (st : GuiState) : ValidTrace st []
  | cons {st st' : GuiState} {m : Msg} {ms : List Msg} :
      ValidOp st m → applyOp st m = Except.ok st' → ValidTrace st' ms →
      ValidTrace st (m :: ms)

/-! Helper lemmas about the Python-semantics primitives. -/

theorem pyGet_ok {α : Type} (l : List α) (i : Int) (h0 : 0 ≤ i)
    (h1 : i < (l.length : Int)) :
    pyGet l i = .ok (l.get ⟨i.toNat, by omega⟩) := by
  unfold pyGet
  rw [dif_pos ⟨h0, h1⟩]

theorem pySet_ok {α : Type} (l : List α) (i : Int) (x : α) (h0 : 0 ≤ i)
    (h1 : i < (l.length : Int)) :
    pySet l i x = .ok (l.set i.toNat x) := by
  unfold pySet
  rw [if_pos ⟨h0, h1⟩]

theorem countP_set_add {α : Type} (p : α → Bool) (l : List α) (i : Nat) (x : α)
    (h : i < l.length) :
    (l.set i x).countP p + (if p (l.get ⟨i, h⟩) then 1 else 0)
      = l.countP p + (if p x then 1 else 0) := by
  induction l generalizing i with
  | nil => simp at h
  | cons hd tl ih =>
    cases i with
    | zero =>
      simp only [List.set, List.countP_cons, List.get]
      omega
    | succ n =>
      have hn : n < tl.length := by simpa using h
      have := ih n hn
      simp only [List.set, List.countP_cons, List.get]
      omega

theorem set_get_eq {α : Type} (l : List α) (i : Nat) (h : i < l.length) :
    l.set i (l.get ⟨i, h⟩) = l := by
  apply List.ext_getElem (by simp)
  intro n h1 h2
  rw [List.getElem_set]
  split
  · next heq => subst heq; simp
  · rfl

theorem lookupTemp_insertTemp_self (reg : List (String × TempVal)) (t : String)
    (e : TempVal) : lookupTemp (insertTemp reg t e) t = some e := by
  induction reg with
  | nil => simp [insertTemp, lookupTemp]
  | cons kv rest ih =>
    obtain ⟨k, v⟩ := kv
    by_cases hk : k = t
    · simp [insertTemp, lookupTemp, hk]
    · simp [insertTemp, lookupTemp, hk, ih]

theorem lookupTemp_insertTemp_ne (reg : List (String × TempVal)) (t t' : String)
    (e : TempVal) (h : t ≠ t') :
    lookupTemp (insertTemp reg t e) t' = lookupTemp reg t' := by
  induction reg with
  | nil => simp [insertTemp, lookupTemp, h]
  | cons kv rest ih =>
    obtain ⟨k, v⟩ := kv
    by_cases hk : k = t
    · subst hk
      simp [insertTemp, lookupTemp, h]
    · simp [insertTemp, lookupTemp, hk, ih]

theorem countP_insertTemp_absent (p : String × TempVal → Bool)
    (reg : List (String × TempVal)) (t : String) (e : TempVal)
    (h : lookupTemp reg t = none) :
    (insertTemp reg t e).countP p = reg.countP p + (if p (t, e) then 1 else 0) := by
  induction reg with
  | nil => simp [insertTemp, List.countP_cons]
  | cons kv rest ih =>
    obtain ⟨k, v⟩ := kv
    by_cases hk : k = t
    · simp [lookupTemp, hk] at h
    · simp only [lookupTemp, hk, if_false] at h
      simp only [insertTemp, hk, if_false, List.countP_cons, ih h]
      omega

theorem countP_insertTemp_present (p : String × TempVal → Bool)
    (reg : List (String × TempVal)) (t : String) (e v : TempVal)
    (h : lookupTemp reg t = some v) :
    (insertTemp reg t e).countP p + (if p (t, v) then 1 else 0)
      = reg.countP p + (if p (t, e) then 1 else 0) := by
  induction reg with
  | nil => simp [lookupTemp] at h
  | cons kv rest ih =>
    obtain ⟨k, w⟩ := kv
    by_cases hk : k = t
    · subst hk
      simp only [lookupTemp, if_true, eq_self_iff_true, Option.some.injEq] at h
      subst h
      simp only [insertTemp, if_true, eq_self_iff_true, List.countP_cons]
      omega
    · simp only [lookupTemp, hk, if_false] at h
      simp only [insertTemp, hk, if_false, List.countP_cons]
      have := ih h
      omega

/-! Evaluation lemmas for `applyOp` under in-range indices. -/

theorem applyOp_swap_eq (st : GuiState) (a b : Int) (h0 : 0 ≤ a)
    (h1 : a < (st.elements.length : Int)) (h2 : 0 ≤ b)
    (h3 : b < (st.elements.length : Int)) :
    applyOp st (.swap a b) =
      .ok { st with elements := (st.elements.set a.toNat (st.elements.get ⟨b.toNat, by omega⟩)).set b.toNat (st.elements.get ⟨a.toNat, by omega⟩) } := by
  have hb3 : b < (((st.elements.set a.toNat (st.elements.get ⟨b.toNat, by omega⟩)).length : Nat) : Int) := by
    simpa using h3
  simp only [applyOp, pyGet_ok st.elements a h0 h1, pyGet_ok st.elements b h2 h3,
    pySet_ok st.elements a _ h0 h1,
    pySet_ok _ b _ h2 hb3, bind, Except.bind, pure, Except.pure]

theorem applyOp_move_eq (st : GuiState) (a b : Int) (h0 : 0 ≤ a)
    (h1 : a < (st.elements.length : Int)) (h2 : 0 ≤ b)
    (h3 : b < (st.elements.length : Int)) :
    applyOp st (.move a b) =
      .ok { st with elements := (st.elements.set b.toNat (st.elements.get ⟨a.toNat, by omega⟩)).set a.toNat none } := by
  have ha1 : a < (((st.elements.set b.toNat (st.elements.get ⟨a.toNat, by omega⟩)).length : Nat) : Int) := by
    simpa using h1
  simp only [applyOp, pyGet_ok st.elements a h0 h1,
    pySet_ok st.elements b _ h2 h3,
    pySet_ok _ a _ h0 ha1, bind, Except.bind, pure, Except.pure]

theorem applyOp_mft_eq (st : GuiState) (t : String) (b : Int) (pos : Nat × Nat)
    (elt : Option Int) (hl : lookupTemp st.temp_elements t = some (pos, elt))
    (h2 : 0 ≤ b) (h3 : b < (st.elements.length : Int)) :
    applyOp st (.move_from_temp t b) =
      .ok { elements := st.elements.set b.toNat elt, temp_elements := insertTemp st.temp_elements t (pos, none) } := by
  simp only [applyOp, hl, pySet_ok st.elements b elt h2 h3, bind, Except.bind,
    pure, Except.pure]

theorem applyOp_mtt_eq_absent (st : GuiState) (a : Int) (t : String) (h0 : 0 ≤ a)
    (h1 : a < (st.elements.length : Int))
    (hl : lookupTemp st.temp_elements t = none) :
    applyOp st (.move_to_temp a t) =
      .ok { elements := st.elements.set a.toNat none, temp_elements := insertTemp st.temp_elements t ((20 + 20 * st.temp_elements.length, 60), st.elements.get ⟨a.toNat, by omega⟩) } := by
  simp only [applyOp, hl, pyGet_ok st.elements a h0 h1,
    pySet_ok st.elements a none h0 h1, bind, Except.bind, pure, Except.pure]

theorem applyOp_mtt_eq_present (st : GuiState) (a : Int) (t : String)
    (pos : Nat × Nat) (elt : Option Int) (h0 : 0 ≤ a)
    (h1 : a < (st.elements.length : Int))
    (hl : lookupTemp st.temp_elements t = some (pos, elt)) :
    applyOp st (.move_to_temp a t) =
      .ok { elements := st.elements.set a.toNat none, temp_elements := insertTemp st.temp_elements t (pos, st.elements.get ⟨a.toNat, by omega⟩) } := by
  simp only [applyOp, hl, pyGet_ok st.elements a h0 h1,
    pySet_ok st.elements a none h0 h1, bind, Except.bind, pure, Except.pure]

/-! Injectivity of the decimal rendering used for temporary tokens
(Python `str(address)` is modelled by `toString : Nat → String`, which is
`Nat.repr`). We prove it by exhibiting a valuation that reads the digit
string back. -/

/-- The numeric value of one decimal digit character. -/
def digitVal (c : Char) : Nat := c.toNat - 48

/-- The value of a most-significant-first digit string. -/
def digitsVal : List Char → Nat
  | [] => 0
  | c :: cs => digitVal c * 10 ^ cs.length + digitsVal cs

theorem digitVal_digitChar (d : Nat) (h : d < 10) : digitVal (Nat.digitChar d) = d := by
  revert h
  revert d
  decide

theorem digitsVal_toDigitsCore (f : Nat) : ∀ (n : Nat) (l : List Char), n < 10 ^ f →
    digitsVal (Nat.toDigitsCore 10 f n l) = n * 10 ^ l.length + digitsVal l := by
  induction f with
  | zero =>
    intro n l hn
    interval_cases n
    simp [Nat.toDigitsCore]
  | succ f ih =>
    intro n l hn
    by_cases h10 : n / 10 = 0
    · have hlt : n < 10 := by omega
      simp only [Nat.toDigitsCore, h10, if_true, eq_self_iff_true, digitsVal]
      rw [digitVal_digitChar (n % 10) (Nat.mod_lt n (by omega)), Nat.mod_eq_of_lt hlt]
    · have hdiv : n / 10 < 10 ^ f := by
        rw [Nat.div_lt_iff_lt_mul (by omega)]
        calc n < 10 ^ (f + 1) := hn
        _ = 10 ^ f * 10 := by rw [Nat.pow_succ]
      simp only [Nat.toDigitsCore, h10, if_false]
      rw [ih (n / 10) (Nat.digitChar (n % 10) :: l) hdiv]
      simp only [List.length_cons, digitsVal]
      rw [digitVal_digitChar (n % 10) (Nat.mod_lt n (by omega))]
      have hmod : n / 10 * 10 + n % 10 = n := by omega
      calc n / 10 * 10 ^ (l.length + 1) + (n % 10 * 10 ^ l.length + digitsVal l)
          = (n / 10 * 10 + n % 10) * 10 ^ l.length + digitsVal l := by ring
        _ = n * 10 ^ l.length + digitsVal l := by rw [hmod]

theorem digitsVal_toDigits (n : Nat) : digitsVal (Nat.toDigits 10 n) = n := by
  have hn : n < 10 ^ (n + 1) := by
    calc n < 10 ^ n := Nat.lt_pow_self (by omega) n
    _ ≤ 10 ^ (n + 1) := Nat.pow_le_pow_right (by omega) (by omega)
  rw [Nat.toDigits, digitsVal_toDigitsCore (n + 1) n [] hn]
  simp [digitsVal]

theorem natRepr_injective (m n : Nat) (h : Nat.repr m = Nat.repr n) : m = n := by
  have hd : Nat.toDigits 10 m = Nat.toDigits 10 n := by
    have := congrArg String.data h
    simpa [Nat.repr, List.asString] using this
  calc m = digitsVal (Nat.toDigits 10 m) := (digitsVal_toDigits m).symm
  _ = digitsVal (Nat.toDigits 10 n) := by rw [hd]
  _ = n := digitsVal_toDigits n

theorem natToString_injective (m n : Nat) (h : toString m = toString n) : m = n :=
  natRepr_injective m n h

/-- Claim C3: for every address and container parameters `(base, count,
stride)`, the classifier returns `Slot i` iff
`base ≤ addr < base + count * stride` with `i = (addr - base) / stride`,
and for addresses outside that range it returns the stringified address as
a token, with two out-of-range addresses yielding equal tokens iff the
addresses are equal. -/
theorem c3_classifier_correct (base count stride addr : Nat) :
    (∀ i, classify base count stride addr = Loc.slot i ↔
      (base ≤ addr ∧ addr < base + count * stride ∧ i = (addr - base) / stride)) ∧
    (¬ inVec base count stride addr →
      classify base count stride addr = Loc.token (toString addr) ∧
      ∀ addr2, ¬ inVec base count stride addr2 →
        (classify base count stride addr = classify base count stride addr2 ↔
          addr = addr2)) := by
  constructor
  · intro i
    by_cases h : inVec base count stride addr
    · simp only [classify, if_pos h, vecIndex]
      constructor
      · intro hs
        injection hs with hs
        exact ⟨h.1, h.2, hs.symm⟩
      · intro ⟨_, _, hi⟩
        rw [hi]
    · simp only [classify, if_neg h]
      constructor
      · intro hs
        simp at hs
      · intro ⟨ha, hb, _⟩
        exact absurd ⟨ha, hb⟩ h
  · intro h
    refine ⟨by simp [classify, h], ?_⟩
    intro addr2 h2
    simp only [classify, if_neg h, if_neg h2]
    constructor
    · intro ht
      injection ht with ht
      exact natToString_injective addr addr2 ht
    · intro he
      rw [he]

/-- Witness for C3 at concrete out-of-range and in-range inputs. -/
theorem c3_classifier_correct_witness :
    (classify 100 4 4 104 = Loc.slot 1 ↔
      (100 ≤ 104 ∧ 104 < 100 + 4 * 4 ∧ 1 = (104 - 100) / 4)) ∧
    classify 100 4 4 50 = Loc.token (toString 50) ∧
    (classify 100 4 4 50 = classify 100 4 4 200 ↔ 50 = 200) := by
  have h1 := (c3_classifier_correct 100 4 4 104).1 1
  have h2 := (c3_classifier_correct 100 4 4 50).2 (by decide)
  exact ⟨h1, h2.1, h2.2 200 (by decide)⟩

/-- Claim C5: a move whose source and destination addresses both classify
as temporaries raises the `RuntimeError` of `show_move`, no record is
emitted, and the GUI state model is left unchanged. -/
theorem c5_temp_to_temp_error (base count stride aAddr bAddr : Nat)
    (ha : ¬ inVec base count stride aAddr) (hb : ¬ inVec base count stride bAddr) :
    show_move base count stride aAddr bAddr =
      .error (.runtimeError ("saw an unexpected move from temporary to temporary")) ∧
    emitted (show_move base count stride aAddr bAddr) = [] ∧
    ∀ st, applyOps st (emitted (show_move base count stride aAddr bAddr)) = .ok st := by
  have h1 : show_move base count stride aAddr bAddr =
      .error (.runtimeError ("saw an unexpected move from temporary to temporary")) := by
    simp [show_move, ha, hb]
  exact ⟨h1, by simp [h1, emitted], fun st => by simp [h1, emitted, applyOps]⟩

/-- Witness for C5: both addresses outside a concrete vector. -/
theorem c5_temp_to_temp_error_witness :
    show_move 100 4 4 50 60 =
      .error (.runtimeError ("saw an unexpected move from temporary to temporary")) := by
  exact (c5_temp_to_temp_error 100 4 4 50 60 (by decide) (by decide)).1

/-- Claim C10: `show_swap` applies no bounds check: every pair of operand
addresses yields a swap record whose indices come from raw pointer
subtraction, so an operand below the vector yields a negative index and
one at or past its end yields an index at least `count`. -/
theorem c10_show_swap_unchecked (base count stride aAddr bAddr : Nat)
    (hs : 0 < stride) :
    show_swap base stride aAddr bAddr =
      Msg.swap (((aAddr : Int) - (base : Int)).tdiv (stride : Int))
               (((bAddr : Int) - (base : Int)).tdiv (stride : Int)) ∧
    (aAddr + stride ≤ base →
      ((aAddr : Int) - (base : Int)).tdiv (stride : Int) < 0) ∧
    (base + count * stride ≤ aAddr →
      (count : Int) ≤ ((aAddr : Int) - (base : Int)).tdiv (stride : Int)) := by
  refine ⟨rfl, ?_, ?_⟩
  · intro hlo
    have hd : ((aAddr : Int) - (base : Int)) = -(((base - aAddr : Nat) : Int)) := by
      omega
    rw [hd, Int.neg_tdiv]
    have hge : 1 ≤ (base - aAddr) / stride := by
      rw [Nat.one_le_div_iff hs]
      omega
    have : (((base - aAddr : Nat) : Int)).tdiv ((stride : Nat) : Int)
        = (((base - aAddr) / stride : Nat) : Int) := rfl
    rw [this]
    omega
  · intro hhi
    have hd : ((aAddr : Int) - (base : Int)) = (((aAddr - base : Nat) : Int)) := by
      omega
    rw [hd]
    have : (((aAddr - base : Nat) : Int)).tdiv ((stride : Nat) : Int)
        = (((aAddr - base) / stride : Nat) : Int) := rfl
    rw [this]
    have hge : count ≤ (aAddr - base) / stride := by
      rw [Nat.le_div_iff_mul_le hs]
      omega
    omega

/-- Witness for C10: an operand two elements below the vector base gives
index `-2`. -/
theorem c10_show_swap_unchecked_witness :
    show_swap 100 4 92 104 = Msg.swap (-2) 1 ∧
    ((92 : Int) - (100 : Int)).tdiv ((4 : Nat) : Int) < 0 := by
  have h := c10_show_swap_unchecked 100 4 4 92 104 (by decide)
  exact ⟨h.1, h.2.1 (by decide)⟩

/-- Claim C9: a `MoveFromTemp` for a token that is present in the registry
but already element-empty raises no error: the empty marker is stored into
the destination slot, which ends up empty, and the registry entry keeps
its position with an empty element. -/
theorem c9_withdrawn_temp_silent (st : GuiState) (t : String) (dst : Int)
    (pos : Nat × Nat) (hl : lookupTemp st.temp_elements t = some (pos, none))
    (h0 : 0 ≤ dst) (h1 : dst < (st.elements.length : Int)) :
    applyOp st (.move_from_temp t dst) =
      .ok { elements := st.elements.set dst.toNat none, temp_elements := insertTemp st.temp_elements t (pos, none) } ∧
    slotAt { elements := st.elements.set dst.toNat none, temp_elements := insertTemp st.temp_elements t (pos, none) } dst.toNat = none ∧
    lookupTemp (insertTemp st.temp_elements t (pos, none)) t = some (pos, none) := by
  refine ⟨applyOp_mft_eq st t dst pos none hl h0 h1, ?_, lookupTemp_insertTemp_self _ _ _⟩
  simp only [slotAt, List.getD_eq_getElem?_getD, List.getElem?_set]
  have hlt : dst.toNat < st.elements.length := by omega
  simp [hlt]

/-- Witness for C9: withdrawing twice from the same token. -/
theorem c9_withdrawn_temp_silent_witness :
    applyOp { elements := [some 5, none], temp_elements := [(("t1"), ((20, 60), none))] } (.move_from_temp ("t1") 1) =
      .ok { elements := [some 5, none], temp_elements := [(("t1"), ((20, 60), none))] } := by
  have h := c9_withdrawn_temp_silent
    { elements := [some 5, none], temp_elements := [(("t1"), ((20, 60), none))] }
    ("t1") 1 (20, 60) rfl (by decide) (by decide)
  exact h.1

theorem double_exchange {α : Type} (l : List α) (i j : Nat) (hi : i < l.length)
    (hj : j < l.length) (hi1 : i < ((l.set i (l.get ⟨j, hj⟩)).set j (l.get ⟨i, hi⟩)).length)
    (hj1 : j < ((l.set i (l.get ⟨j, hj⟩)).set j (l.get ⟨i, hi⟩)).length) :
    (((l.set i (l.get ⟨j, hj⟩)).set j (l.get ⟨i, hi⟩)).set i
        (((l.set i (l.get ⟨j, hj⟩)).set j (l.get ⟨i, hi⟩)).get ⟨j, hj1⟩)).set j
      (((l.set i (l.get ⟨j, hj⟩)).set j (l.get ⟨i, hi⟩)).get ⟨i, hi1⟩) = l := by
  apply List.ext_getElem (by simp)
  intro n hn1 hn2
  simp only [List.get_eq_getElem, List.getElem_set]
  split_ifs <;> simp_all [List.getElem_set]

/-- Claim C8: applying `Swap(a,b)` twice restores the state that held
before the first swap, for in-range indices (including the slot contents;
the temporary registry is untouched by swaps). -/
theorem c8_swap_involution (st : GuiState) (a b : Int) (h0 : 0 ≤ a)
    (h1 : a < (st.elements.length : Int)) (h2 : 0 ≤ b)
    (h3 : b < (st.elements.length : Int)) (hne : a ≠ b) :
    applyOps st [Msg.swap a b, Msg.swap a b] = .ok st := by
  obtain ⟨l, temps⟩ := st
  dsimp only at h1 h3
  have han : a.toNat < l.length := by omega
  have hbn : b.toNat < l.length := by omega
  have e1 := applyOp_swap_eq ⟨l, temps⟩ a b h0 h1 h2 h3
  have hlen1 : ((l.set a.toNat (l.get ⟨b.toNat, hbn⟩)).set b.toNat (l.get ⟨a.toNat, han⟩)).length = l.length := by
    simp
  have h1' : a < ((((l.set a.toNat (l.get ⟨b.toNat, hbn⟩)).set b.toNat (l.get ⟨a.toNat, han⟩)).length : Nat) : Int) := by
    rw [hlen1]
    exact h1
  have h3' : b < ((((l.set a.toNat (l.get ⟨b.toNat, hbn⟩)).set b.toNat (l.get ⟨a.toNat, han⟩)).length : Nat) : Int) := by
    rw [hlen1]
    exact h3
  have e2 := applyOp_swap_eq ⟨(l.set a.toNat (l.get ⟨b.toNat, hbn⟩)).set b.toNat (l.get ⟨a.toNat, han⟩), temps⟩ a b h0 h1' h2 h3'
  simp only [applyOps, e1, bind, Except.bind, e2]
  rw [double_exchange l a.toNat b.toNat han hbn]

/-- Witness for C8: swapping slots 0 and 1 twice on a concrete state. -/
theorem c8_swap_involution_witness :
    applyOps { elements := [some 7, some 9], temp_elements := [] } [Msg.swap 0 1, Msg.swap 0 1] =
      .ok { elements := [some 7, some 9], temp_elements := [] } := by
  exact c8_swap_involution { elements := [some 7, some 9], temp_elements := [] } 0 1
    (by decide) (by decide) (by decide) (by decide) (by decide)

/-- Claim C7: on the `[3,1,4,2]` example, `Swap(0,1)` gives slots
`[1,3,4,2]`; `MoveToTemp(3,"t1")` empties slot 3 into a fresh registry
entry holding 2; `MoveFromTemp("t1",3)` restores the slots, leaving the
registry entry element-empty with its position retained; and in general
`MoveToTemp(s,t)` then `MoveFromTemp(t,s)` for a fresh token `t` restores
the slot contents. -/
theorem c7_round_trip :
    applyOps (initState [3, 1, 4, 2]) [Msg.swap 0 1] = .ok { elements := [some 1, some 3, some 4, some 2], temp_elements := [] } ∧
    applyOps (initState [3, 1, 4, 2]) [Msg.swap 0 1, Msg.move_to_temp 3 ("t1")] = .ok { elements := [some 1, some 3, some 4, none], temp_elements := [(("t1"), ((20, 60), some 2))] } ∧
    applyOps (initState [3, 1, 4, 2]) [Msg.swap 0 1, Msg.move_to_temp 3 ("t1"), Msg.move_from_temp ("t1") 3] = .ok { elements := [some 1, some 3, some 4, some 2], temp_elements := [(("t1"), ((20, 60), none))] } ∧
    ∀ (st : GuiState) (s : Int) (t : String), 0 ≤ s → s < (st.elements.length : Int) →
      lookupTemp st.temp_elements t = none →
      ∃ st', applyOps st [Msg.move_to_temp s t, Msg.move_from_temp t s] = .ok st' ∧
        st'.elements = st.elements := by
  refine ⟨rfl, rfl, rfl, ?_⟩
  intro st s t h0 h1 hl
  obtain ⟨l, temps⟩ := st
  dsimp only at h1 hl
  have hsn : s.toNat < l.length := by omega
  have e1 := applyOp_mtt_eq_absent ⟨l, temps⟩ s t h0 h1 hl
  have h1' : s < (((l.set s.toNat none).length : Nat) : Int) := by
    simpa using h1
  have hl' : lookupTemp (insertTemp temps t ((20 + 20 * temps.length, 60), l.get ⟨s.toNat, hsn⟩)) t
      = some ((20 + 20 * temps.length, 60), l.get ⟨s.toNat, hsn⟩) :=
    lookupTemp_insertTemp_self temps t _
  have e2 := applyOp_mft_eq
    ⟨l.set s.toNat none, insertTemp temps t ((20 + 20 * temps.length, 60), l.get ⟨s.toNat, hsn⟩)⟩
    t s (20 + 20 * temps.length, 60) (l.get ⟨s.toNat, hsn⟩) hl' h0 h1'
  refine ⟨⟨(l.set s.toNat none).set s.toNat (l.get ⟨s.toNat, hsn⟩), insertTemp (insertTemp temps t ((20 + 20 * temps.length, 60), l.get ⟨s.toNat, hsn⟩)) t ((20 + 20 * temps.length, 60), none)⟩, ?_, ?_⟩
  · simp only [applyOps, e1, bind, Except.bind]
    dsimp only
    rw [e2]
  · dsimp only
    rw [List.set_set, set_get_eq l s.toNat hsn]

/-- Witness for C7's general part: the concrete round trip of the claim. -/
theorem c7_round_trip_witness :
    ∃ st', applyOps { elements := [some 1, some 3, some 4, some 2], temp_elements := [] }
        [Msg.move_to_temp 3 ("t1"), Msg.move_from_temp ("t1") 3] = .ok st' ∧
      st'.elements = [some 1, some 3, some 4, some 2] := by
  exact c7_round_trip.2.2.2 { elements := [some 1, some 3, some 4, some 2], temp_elements := [] }
    3 ("t1") (by decide) (by decide) rfl

theorem runHits_moves_disabled (base count stride : Nat) (bp : BpState)
    (hm : bp.move_bp = false) (hma : bp.move_assign_bp = false)
    (hp : bp.pendingFinish = true) (inner : List HitEv)
    (hinner : ∀ ev ∈ inner, ∃ site tA oA, ev = HitEv.moveHit site tA oA) :
    runHits base count stride bp (inner ++ [HitEv.swapFinish]) =
      .ok ({ bp with move_bp := true, move_assign_bp := true, pendingFinish := false }, []) := by
  induction inner with
  | nil =>
    simp only [List.nil_append, runHits, stepHit, hp, if_true, bind, Except.bind,
      List.append_nil, pure, Except.pure]
  | cons ev rest ih =>
    obtain ⟨site, tA, oA, hev⟩ := hinner ev (List.mem_cons_self ev rest)
    subst hev
    have hstep : stepHit base count stride bp (HitEv.moveHit site tA oA) = .ok (bp, []) := by
      cases site <;> simp [stepHit, hm, hma]
    have ih' := ih (fun e he => hinner e (List.mem_cons_of_mem _ he))
    simp only [List.cons_append, runHits, hstep, bind, Except.bind, List.append_eq,
      List.nil_append, pure, Except.pure] at ih' ⊢
    rw [ih']

/-- Claim C2: a swap-primitive hit with the swap site enabled emits exactly
one `Swap` record; all move hits strictly between the swap's entry and its
one-shot return trigger are absorbed (the move sites are disabled at entry),
and the return trigger re-enables the move sites. -/
theorem c2_swap_suppression (base count stride : Nat) (bp : BpState) (a b : Nat)
    (inner : List HitEv) (hsw : bp.swap_bp = true)
    (hinner : ∀ ev ∈ inner, ∃ site tA oA, ev = HitEv.moveHit site tA oA) :
    runHits base count stride bp (HitEv.swapHit a b :: (inner ++ [HitEv.swapFinish])) =
      .ok ({ bp with move_bp := true, move_assign_bp := true, pendingFinish := false },
           [show_swap base stride a b]) ∧
    ∃ i j, show_swap base stride a b = Msg.swap i j := by
  constructor
  · have habs := runHits_moves_disabled base count stride
      { swap_bp := bp.swap_bp, move_bp := false, move_assign_bp := false, pendingFinish := true }
      rfl rfl rfl inner hinner
    dsimp only at habs
    rw [hsw] at habs
    simp only [runHits, stepHit, hsw, if_true, bind, Except.bind, habs, List.append_nil,
      List.append_eq, pure, Except.pure]
  · exact ⟨_, _, rfl⟩

/-- Witness for C2: one swap hit with two internal move hits before the
return trigger, on a concrete breakpoint state. -/
theorem c2_swap_suppression_witness :
    runHits 100 4 4 { swap_bp := true, move_bp := true, move_assign_bp := true, pendingFinish := false }
        (HitEv.swapHit 100 104 :: ([HitEv.moveHit MoveSite.ctor 100 104, HitEv.moveHit MoveSite.assign 104 100] ++ [HitEv.swapFinish])) =
      .ok ({ swap_bp := true, move_bp := true, move_assign_bp := true, pendingFinish := false },
           [show_swap 100 4 100 104]) := by
  have h := c2_swap_suppression 100 4 4
    { swap_bp := true, move_bp := true, move_assign_bp := true, pendingFinish := false }
    100 104 [HitEv.moveHit MoveSite.ctor 100 104, HitEv.moveHit MoveSite.assign 104 100] rfl
    (by intro ev hev
        simp only [List.mem_cons, List.not_mem_nil, or_false] at hev
        rcases hev with rfl | rfl
        · exact ⟨MoveSite.ctor, 100, 104, rfl⟩
        · exact ⟨MoveSite.assign, 104, 100, rfl⟩)
  exact h.1

theorem applyOp_swap_temps (st st' : GuiState) (a b : Int)
    (hok : applyOp st (.swap a b) = .ok st') :
    st'.temp_elements = st.temp_elements := by
  simp only [applyOp, bind, Except.bind] at hok
  repeat' split at hok
  all_goals try exact absurd hok (by simp)
  injection hok with h'
  subst h'
  rfl

theorem applyOp_move_temps (st st' : GuiState) (a b : Int)
    (hok : applyOp st (.move a b) = .ok st') :
    st'.temp_elements = st.temp_elements := by
  simp only [applyOp, bind, Except.bind] at hok
  repeat' split at hok
  all_goals try exact absurd hok (by simp)
  injection hok with h'
  subst h'
  rfl

theorem lookupTemp_none_applyOp (st st' : GuiState) (m : Msg) (t : String)
    (h : lookupTemp st.temp_elements t = none)
    (hm : ∀ s, m ≠ Msg.move_to_temp s t)
    (hok : applyOp st m = .ok st') :
    lookupTemp st'.temp_elements t = none := by
  match m with
  | .swap a b =>
    rw [applyOp_swap_temps st st' a b hok]
    exact h
  | .move a b =>
    rw [applyOp_move_temps st st' a b hok]
    exact h
  | .move_from_temp t' b =>
    rcases hl : lookupTemp st.temp_elements t' with _ | ⟨pos, elt⟩
    · simp only [applyOp, hl] at hok
      exact absurd hok (by simp)
    · have ht' : t' ≠ t := by
        intro hh
        rw [hh, h] at hl
        exact absurd hl (by simp)
      simp only [applyOp, hl, bind, Except.bind] at hok
      split at hok
      · exact absurd hok (by simp)
      · injection hok with h'
        subst h'
        dsimp only
        rw [lookupTemp_insertTemp_ne st.temp_elements t' t _ ht']
        exact h
  | .move_to_temp s t' =>
    have ht' : t' ≠ t := by
      intro hh
      exact hm s (by rw [hh])
    simp only [applyOp, bind, Except.bind] at hok
    repeat' split at hok
    all_goals try exact absurd hok (by simp)
    all_goals injection hok with h'
    all_goals subst h'
    all_goals dsimp only
    all_goals rw [lookupTemp_insertTemp_ne st.temp_elements t' t _ ht']
    all_goals exact h

theorem lookupTemp_none_applyOps (ms : List Msg) : ∀ (st st' : GuiState) (t : String),
    lookupTemp st.temp_elements t = none →
    (∀ s, Msg.move_to_temp s t ∉ ms) →
    applyOps st ms = .ok st' →
    lookupTemp st'.temp_elements t = none := by
  induction ms with
  | nil =>
    intro st st' t h _ hok
    simp only [applyOps] at hok
    injection hok with h'
    subst h'
    exact h
  | cons m rest ih =>
    intro st st' t h hnr hok
    simp only [applyOps, bind, Except.bind] at hok
    split at hok
    · exact absurd hok (by simp)
    · next st1 hst1 =>
      have hm : ∀ s, m ≠ Msg.move_to_temp s t := by
        intro s hs
        exact hnr s (by rw [← hs]; exact List.mem_cons_self m rest)
      have h1 := lookupTemp_none_applyOp st st1 m t h hm hst1
      exact ih st1 st' t h1 (fun s hs => hnr s (List.mem_cons_of_mem m hs)) hok

/-- Claim C6: a `MoveFromTemp` for a token never registered by a prior
`MoveToTemp` raises the `KeyError` of the registry lookup (the
`MissingTemporary` condition) instead of performing a state transition:
from the initial state, after any successfully applied record sequence
containing no `MoveToTemp` for that token, applying `MoveFromTemp` for it
errors. -/
theorem c6_missing_temporary (vals : List Int) (ms : List Msg) (t : String)
    (dst : Int) (st : GuiState)
    (hnr : ∀ s, Msg.move_to_temp s t ∉ ms)
    (hok : applyOps (initState vals) ms = .ok st) :
    applyOp st (.move_from_temp t dst) = .error (.keyError t) := by
  have habs : lookupTemp st.temp_elements t = none :=
    lookupTemp_none_applyOps ms (initState vals) st t rfl hnr hok
  simp only [applyOp, habs]

/-- Witness for C6: an unknown token on a freshly initialized state after
a swap. -/
theorem c6_missing_temporary_witness :
    applyOp { elements := [some 2, some 1], temp_elements := [] } (.move_from_temp ("t9") 0) =
      .error (.keyError ("t9")) := by
  exact c6_missing_temporary [1, 2] [Msg.swap 0 1] ("t9") 0
    { elements := [some 2, some 1], temp_elements := [] }
    (by intro s hs
        simp only [List.mem_cons, List.not_mem_nil, or_false] at hs
        cases hs)
    rfl

/-- Claim C4 counterexample: with two records queued, one poll cycle of
`_check_for_messages` applies only the first and leaves the second
queued, so a single poll does not apply all queued records. -/
theorem c4_counterexample :
    checkForMessages { elements := [some 1, some 2], temp_elements := [] } [Msg.swap 0 1, Msg.swap 0 1] =
      .ok ({ elements := [some 2, some 1], temp_elements := [] }, [Msg.swap 0 1]) ∧
    ([Msg.swap 0 1] : List Msg) ≠ [] := by
  exact ⟨rfl, by simp⟩

/-- Claim C4 (amended): each poll cycle applies at most one record — the
oldest queued one — returning immediately with the rest of the queue, and
returns without blocking when the queue is empty; iterating one poll per
queued record applies the whole queue in FIFO order. -/
theorem c4_amended_poll (st : GuiState) (queue : List Msg) :
    (queue = [] → checkForMessages st queue = .ok (st, [])) ∧
    (∀ m rest, queue = m :: rest →
      checkForMessages st queue = Except.map (fun s => (s, rest)) (applyOp st m)) ∧
    runPolls queue.length st queue = Except.map (fun s => (s, ([] : List Msg))) (applyOps st queue) := by
  refine ⟨?_, ?_, ?_⟩
  · intro h
    subst h
    rfl
  · intro m rest h
    subst h
    simp only [checkForMessages, bind, Except.bind, Except.map]
    cases applyOp st m <;> rfl
  · induction queue generalizing st with
    | nil => rfl
    | cons m rest ih =>
      simp only [List.length_cons, runPolls, checkForMessages, applyOps, bind, Except.bind]
      cases applyOp st m with
      | error e => rfl
      | ok st1 => exact ih st1

/-- Witness for C4's amended theorem at a concrete state and queue. -/
theorem c4_amended_poll_witness :
    checkForMessages { elements := [some 1, some 2], temp_elements := [] } [Msg.swap 0 1, Msg.swap 0 1] =
      Except.map (fun s => (s, [Msg.swap 0 1]))
        (applyOp { elements := [some 1, some 2], temp_elements := [] } (Msg.swap 0 1)) := by
  exact (c4_amended_poll { elements := [some 1, some 2], temp_elements := [] }
    [Msg.swap 0 1, Msg.swap 0 1]).2.1 (Msg.swap 0 1) [Msg.swap 0 1] rfl

theorem slotAt_eq_get (st : GuiState) (i : Nat) (h : i < st.elements.length) :
    slotAt st i = st.elements.get ⟨i, h⟩ := by
  simp [slotAt, List.getD_eq_getElem?_getD, List.getElem?_eq_getElem h]

theorem countP_exchange {α : Type} (p : α → Bool) (l : List α) (i j : Nat)
    (hi : i < l.length) (hj : j < l.length) :
    ((l.set i (l.get ⟨j, hj⟩)).set j (l.get ⟨i, hi⟩)).countP p = l.countP p := by
  have hj' : j < (l.set i (l.get ⟨j, hj⟩)).length := by simpa using hj
  have E1 := countP_set_add p l i (l.get ⟨j, hj⟩) hi
  have E2 := countP_set_add p (l.set i (l.get ⟨j, hj⟩)) j (l.get ⟨i, hi⟩) hj'
  have hget : (l.set i (l.get ⟨j, hj⟩)).get ⟨j, hj'⟩ = l.get ⟨j, hj⟩ := by
    simp [List.get_eq_getElem, List.getElem_set]
  rw [hget] at E2
  omega

theorem validOp_conserved (st st' : GuiState) (m : Msg) (hv : ValidOp st m)
    (hok : applyOp st m = .ok st') :
    liveSlots st' + liveTemps st' = liveSlots st + liveTemps st := by
  match m with
  | .swap a b =>
    obtain ⟨h0, h1, h2, h3⟩ := hv
    have han : a.toNat < st.elements.length := by omega
    have hbn : b.toNat < st.elements.length := by omega
    rw [applyOp_swap_eq st a b h0 h1 h2 h3] at hok
    injection hok with h'
    subst h'
    unfold liveSlots liveTemps
    dsimp only
    rw [countP_exchange (fun o => o.isSome) st.elements a.toNat b.toNat han hbn]
  | .move a b =>
    obtain ⟨h0, h1, h2, h3, hab, hsome, hnone⟩ := hv
    have han : a.toNat < st.elements.length := by omega
    have hbn : b.toNat < st.elements.length := by omega
    have hab' : b.toNat ≠ a.toNat := by omega
    rw [applyOp_move_eq st a b h0 h1 h2 h3] at hok
    injection hok with h'
    subst h'
    unfold liveSlots liveTemps
    dsimp only
    have hxa : (st.elements.get ⟨a.toNat, han⟩).isSome = true := by
      rw [← slotAt_eq_get st a.toNat han]
      exact hsome
    have hxb : st.elements.get ⟨b.toNat, hbn⟩ = none := by
      rw [← slotAt_eq_get st b.toNat hbn]
      exact hnone
    have ha' : a.toNat < (st.elements.set b.toNat (st.elements.get ⟨a.toNat, han⟩)).length := by
      simpa using han
    have E1 := countP_set_add (fun o => o.isSome) st.elements b.toNat
      (st.elements.get ⟨a.toNat, han⟩) hbn
    have E2 := countP_set_add (fun o => o.isSome)
      (st.elements.set b.toNat (st.elements.get ⟨a.toNat, han⟩)) a.toNat none ha'
    have hget : (st.elements.set b.toNat (st.elements.get ⟨a.toNat, han⟩)).get ⟨a.toNat, ha'⟩
        = st.elements.get ⟨a.toNat, han⟩ := by
      simp [List.get_eq_getElem, List.getElem_set, hab']
    rw [hget] at E2
    rw [hxb] at E1
    simp only [hxa, Option.isSome_none, Bool.false_eq_true, if_false, if_true] at E1 E2
    omega
  | .move_from_temp t b =>
    obtain ⟨h0, h1, ⟨p0, v, hlk⟩, hnone⟩ := hv
    have hbn : b.toNat < st.elements.length := by omega
    rw [applyOp_mft_eq st t b p0 (some v) hlk h0 h1] at hok
    injection hok with h'
    subst h'
    unfold liveSlots liveTemps
    dsimp only
    have hxb : st.elements.get ⟨b.toNat, hbn⟩ = none := by
      rw [← slotAt_eq_get st b.toNat hbn]
      exact hnone
    have E1 := countP_set_add (fun o => o.isSome) st.elements b.toNat (some v) hbn
    rw [hxb] at E1
    have ET := countP_insertTemp_present (fun kv => kv.2.2.isSome) st.temp_elements t
      (p0, none) (p0, some v) hlk
    simp only [Option.isSome_none, Option.isSome_some, Bool.false_eq_true, if_false,
      if_true] at E1 ET
    omega
  | .move_to_temp a t =>
    obtain ⟨h0, h1, hsome, hdisj⟩ := hv
    have han : a.toNat < st.elements.length := by omega
    have hxa : (st.elements.get ⟨a.toNat, han⟩).isSome = true := by
      rw [← slotAt_eq_get st a.toNat han]
      exact hsome
    have E1 := countP_set_add (fun o => o.isSome) st.elements a.toNat none han
    simp only [hxa, Option.isSome_none, Bool.false_eq_true, if_false, if_true] at E1
    rcases hdisj with hlk | ⟨p0, hlk⟩
    · rw [applyOp_mtt_eq_absent st a t h0 h1 hlk] at hok
      injection hok with h'
      subst h'
      unfold liveSlots liveTemps
      dsimp only
      have ET := countP_insertTemp_absent (fun kv => kv.2.2.isSome) st.temp_elements t
        ((20 + 20 * st.temp_elements.length, 60), st.elements.get ⟨a.toNat, han⟩) hlk
      simp only [hxa, if_true] at ET
      rw [ET]
      omega
    · rw [applyOp_mtt_eq_present st a t p0 none h0 h1 hlk] at hok
      injection hok with h'
      subst h'
      unfold liveSlots liveTemps
      dsimp only
      have ET := countP_insertTemp_present (fun kv => kv.2.2.isSome) st.temp_elements t
        (p0, st.elements.get ⟨a.toNat, han⟩) (p0, none) hlk
      simp only [hxa, Option.isSome_none, Bool.false_eq_true, if_false, if_true] at ET
      omega

theorem conserved_upTo (p : List Msg) : ∀ (st : GuiState) (ms q : List Msg) (n : Nat),
    ValidTrace st ms → liveSlots st + liveTemps st = n → ms = p ++ q →
    ∃ st', applyOps st p = .ok st' ∧ liveSlots st' + liveTemps st' = n := by
  induction p with
  | nil =>
    intro st ms q n htr hc hpq
    exact ⟨st, rfl, hc⟩
  | cons m p' ih =>
    intro st ms q n htr hc hpq
    subst hpq
    cases htr with
    | cons hv hok htr' =>
      next st1 =>
        have hc' : liveSlots st1 + liveTemps st1 = n := by
          rw [validOp_conserved st st1 m hv hok]
          exact hc
        obtain ⟨st2, hap, hc2⟩ := ih st1 (p' ++ q) q n htr' hc' rfl
        refine ⟨st2, ?_, hc2⟩
        simp only [applyOps, hok, bind, Except.bind]
        exact hap

/-- Claim C1: for every valid operation-record sequence applied to the
initial container of size N (all slots full, empty registry), after every
prefix the number of non-empty slots plus the number of element-holding
temporary-registry entries equals N. -/
theorem c1_conservation (vals : List Int) (ms : List Msg)
    (htr : ValidTrace (initState vals) ms) (p q : List Msg) (hpq : ms = p ++ q) :
    ∃ st', applyOps (initState vals) p = .ok st' ∧
      liveSlots st' + liveTemps st' = vals.length := by
  apply conserved_upTo p (initState vals) ms q vals.length htr ?_ hpq
  simp [liveSlots, liveTemps, initState, List.countP_map, Function.comp]

/-- Witness for C1: the `[3,1,4,2]` example after a valid swap. -/
theorem c1_conservation_witness :
    ∃ st', applyOps (initState [3, 1, 4, 2]) [Msg.swap 0 1] = .ok st' ∧
      liveSlots st' + liveTemps st' = 4 := by
  have htr : ValidTrace (initState [3, 1, 4, 2]) [Msg.swap 0 1] := by
    refine ValidTrace.cons ⟨by decide, by decide, by decide, by decide⟩ rfl (ValidTrace.nil _)
  exact c1_conservation [3, 1, 4, 2] [Msg.swap 0 1] htr [Msg.swap 0 1] [] rfl

end InstrumentSrs
